import Mathlib

/-!
Shallow embedding of the `dust` disk-usage tool (`src/main.rs`) and proofs about it.

The program is a single-pass pipeline: parse CLI options, expand a glob
pattern, aggregate size and entry count per expanded root (`get_sizes`,
`walk_entries`), sort and filter the entries, and print a table
(`format_size`, `format_count`).  Filesystem interaction is embedded by
passing the observations the program makes (walk events, existence checks,
glob results) as explicit data.
-/

namespace Dust

/-! ### Model of the IEEE double values used by `main`

The only floating-point arithmetic in the program is
`100.0 * entry.size as f64 / total_size as f64` compared against `opts.min`
with `<`.  All finite values reaching the comparison are modelled exactly by
a rational; NaN and the infinities are explicit constructors, since the
division can produce them when `total_size == 0`.
-/

/-- A double value: NaN, a signed infinity (`true` is positive), or an exact
finite value. -/
inductive F where
  | nan : F
  | inf : Bool → F
  | fin : ℚ → F
deriving DecidableEq, Repr

/-- IEEE comparison `<` as used in `if p < opts.min`: every comparison
involving NaN is false; minus infinity is below every finite value, plus
infinity above. -/
def F.lt : F → F → Bool
  | .nan, _ => false
  | _, .nan => false
  | .inf s, .inf t => !s && t
  | .inf s, .fin _ => !s
  | .fin _, .inf t => t
  | .fin a, .fin b => decide (a < b)

/-- IEEE division for the operands occurring in `main`: both operands are
finite (casts of u64 values, hence nonnegative in every use).  Division by
zero gives NaN for a zero numerator and a signed infinity otherwise.  The
other operand shapes never occur in the program and are mapped to NaN. -/
def F.div : F → F → F
  | .fin a, .fin b =>
      if b = 0 then (if a = 0 then .nan else .inf (decide (0 < a))) else .fin (a / b)
  | _, _ => .nan

/-- Embedding of `100.0 * entry.size as f64 / total_size as f64`.  The u64
to f64 casts and the product by 100 are exact for every value reaching this
expression, so they are carried as exact rationals. -/
def percentOf (size total : Nat) : F :=
  F.div (.fin (100 * (size : ℚ))) (.fin (total : ℚ))

/-! ### `format_count` (src/main.rs lines 186–198)

The source renders `n` via a recursive helper `comma` that prints `n`
directly when `n < 1000` and otherwise prints `n / 1000` first and then
appends a comma and the zero-padded last three digits.  Recursion on
`n / 1000` is encoded structurally with a fuel argument; `n` itself is
always enough fuel because `n / 1000 < n` whenever `n >= 1000`.
-/

/-- Embedding of the Rust format specifier `:03` applied to `n % 1000`:
decimal digits, left-padded with zeros to width three. -/
def pad3 (n : Nat) : String :=
  String.mk (List.replicate (3 - (Nat.repr n).length) '0') ++ Nat.repr n

/-- The recursive helper `comma` of `format_count`, with explicit fuel. -/
def commaAux : Nat → Nat → String
  | 0, n => Nat.repr n
  | fuel + 1, n =>
      if n < 1000 then Nat.repr n
      else commaAux fuel (n / 1000) ++ "," ++ pad3 (n % 1000)

/-- Embedding of `format_count`. -/
def format_count (n : Nat) : String :=
  commaAux n n

/-- Modelled from the specification wording for `formatCount`: split the
number into thousand groups from the least significant end. -/
def commaGroups (n : Nat) : List Nat :=
  if h : n < 1000 then [n]
  else (n % 1000) :: commaGroups (n / 1000)
termination_by n
decreasing_by exact Nat.div_lt_self (by omega) (by omega)

/-- Modelled from the specification wording: render the most significant
group without padding and every later group as a comma followed by three
zero-padded digits. -/
def renderGroups : List Nat → String
  | [] => ""
  | g :: gs => Nat.repr g ++ String.join (gs.map (fun m => "," ++ pad3 m))

/-- The specification model of `formatCount`. -/
def format_count_model (n : Nat) : String :=
  renderGroups (commaGroups n).reverse

/-! ### `format_size` (src/main.rs lines 173–184)

The source divides by 1024 while the value is at least 1024 and
`order + 1 < SIZES.len()`, then renders with the format specifier `:.2`.
Since `order` starts at 0 and increases by one per pass, the second
conjunct of the loop condition says at most `SIZES.length - 1` passes run;
that bound is the structural fuel of `sizeLoop`.
-/

/-- The unit table `SIZES` of the source. -/
def SIZES : List String := ["B", "K", "M", "G", "T", "P", "E", "Z", "Y"]

/-- The scaling loop of `format_size`: divide by 1024 while the value is at
least 1024 and fuel (the number of larger units left) remains. -/
def sizeLoop : Nat → ℚ → Nat → ℚ × Nat
  | 0, size, order => (size, order)
  | fuel + 1, size, order =>
      if 1024 ≤ size then sizeLoop fuel (size / 1024) (order + 1) else (size, order)

/-- Round a nonnegative rational to an integer, ties to even, as Rust float
formatting does on the exact value of the double.  Written on numerator and
denominator so that it evaluates by kernel reduction. -/
def roundHalfEven (q : ℚ) : Nat :=
  let n := q.num.toNat
  let d := q.den
  let w := n / d
  let r := 2 * (n % d)
  if r < d then w else if d < r then w + 1 else if w % 2 = 0 then w else w + 1

/-- Decimal digits, left-padded with zeros to width two. -/
def pad2 (n : Nat) : String :=
  if n < 10 then "0" ++ Nat.repr n else Nat.repr n

/-- Embedding of the Rust format specifier `:.2` on the nonnegative doubles
produced by the scaling loop: exactly two digits after the point. -/
def renderFixed2 (q : ℚ) : String :=
  let h := roundHalfEven (q * 100)
  Nat.repr (h / 100) ++ "." ++ pad2 (h % 100)

/-- Embedding of `format_size`. -/
def format_size (n : Nat) : String :=
  let p := sizeLoop (SIZES.length - 1) (n : ℚ) 0
  renderFixed2 p.1 ++ " " ++ SIZES.getD p.2 ""

/-! ### `get_sizes` (src/main.rs lines 162–171)

`get_sizes` runs a `walkdir` traversal from the root and folds over it.  The
traversal is embedded as the list of events the program observes, one per
walked node: `some len` when the entry and its `symlink_metadata` are both
ok (`len` its metadata length), `none` when either step errors, in which
case `filter_map` drops the node so it contributes neither size nor count.
-/

/-- Embedding of `get_sizes` over the observed walk events. -/
def get_sizes (walk : List (Option Nat)) : Nat × Nat :=
  (walk.filterMap id).foldl (fun acc len => (acc.1 + len, acc.2 + 1)) (0, 0)

/-- A filesystem tree as `walkdir` sees it: regular files and symlinks carry
their own metadata length, directories carry their own metadata length and
their children, and `err` stands for a node whose directory entry or
metadata read fails. -/
inductive FsTree where
  | file (len : Nat) : FsTree
  | symlink (len : Nat) : FsTree
  | err : FsTree
  | dir (len : Nat) (children : List FsTree) : FsTree

/-- The event sequence of a `walkdir` traversal: the root first, then the
subtrees in order. -/
def walkEvents : FsTree → List (Option Nat)
  | .file len => [some len]
  | .symlink len => [some len]
  | .err => [none]
  | .dir len children => some len :: (children.attach.map (fun c => walkEvents c.1)).flatten
decreasing_by
  have h := List.sizeOf_lt_of_mem c.2
  simp only [FsTree.dir.sizeOf_spec]
  omega

/-- `get_sizes` applied to a root of the filesystem tree shape. -/
def get_sizes_tree (t : FsTree) : Nat × Nat :=
  get_sizes (walkEvents t)

/-! ### `walk_entries` (src/main.rs lines 146–160)

For each expanded root path the program runs `get_sizes`, then checks
`path.exists()` (a second stat, after the aggregation), pushes a visible
entry only when the check succeeds, and accumulates the totals
unconditionally.  One root is embedded as the observations made for it:
its path, its walk events, and the result of the later existence check.
-/

/-- The observations `walk_entries` makes for one expanded root path. -/
structure RootObs (P : Type) where
  path : P
  walk : List (Option Nat)
  existsAfter : Bool
deriving DecidableEq, Repr

/-- A visible report entry: a root path with its aggregated totals. -/
structure Entry (P : Type) where
  path : P
  size : Nat
  count : Nat
deriving DecidableEq, Repr

/-- The body of the fold in `walk_entries`: push an entry when the root
still exists, and accumulate the grand totals always. -/
def walkStep {P : Type} (acc : Nat × Nat × List (Entry P)) (r : RootObs P) :
    Nat × Nat × List (Entry P) :=
  let sc := get_sizes r.walk
  ( acc.1 + sc.1, acc.2.1 + sc.2,
    if r.existsAfter then acc.2.2 ++ [⟨r.path, sc.1, sc.2⟩] else acc.2.2 )

/-- Embedding of `walk_entries`: fold over the roots. -/
def walk_entries {P : Type} (roots : List (RootObs P)) : Nat × Nat × List (Entry P) :=
  roots.foldl walkStep (0, 0, [])

/-- The entry `walk_entries` builds for a root when it still exists. -/
def rootEntry {P : Type} (r : RootObs P) : Entry P :=
  ⟨r.path, (get_sizes r.walk).1, (get_sizes r.walk).2⟩

/-! ### Sorting and filtering in `main` (src/main.rs lines 83–97)

`main` sorts the entries with `sort_unstable_by_key` on the path when
`opts.path` is set and on the size otherwise, then reverses the whole list
when `opts.reverse` is set.  An unstable sort returns some sorted
permutation; it is embedded by `List.insertionSort`, one such permutation.
The print loop then skips an entry exactly when `p < opts.min` holds for
its computed percentage.
-/

/-- The configuration built by `Opts::parse` (the fields `main` reads). -/
structure Opts where
  reverse : Bool
  percentage : Bool
  path : Bool
  min : F
deriving DecidableEq, Repr

/-- Embedding of the sort and reverse steps of `main`. -/
def sortedEntries {P : Type} [LinearOrder P] (o : Opts) (entries : List (Entry P)) :
    List (Entry P) :=
  let s :=
    if o.path then List.insertionSort (fun a b => a.path ≤ b.path) entries
    else List.insertionSort (fun a b => a.size ≤ b.size) entries
  if o.reverse then s.reverse else s

/-- Embedding of the percentage filter of the print loop: an entry is
printed unless `100.0 * size / total < opts.min` under IEEE comparison. -/
def printedEntries {P : Type} [LinearOrder P] (o : Opts) (total : Nat)
    (entries : List (Entry P)) : List (Entry P) :=
  (sortedEntries o entries).filter (fun e => !((percentOf e.size total).lt o.min))

/-- The report data computed by `main` after `walk_entries`: the grand
totals and the sorted, reversed and filtered visible entries. -/
def report {P : Type} [LinearOrder P] (o : Opts) (roots : List (RootObs P)) :
    Nat × Nat × List (Entry P) :=
  let w := walk_entries roots
  (w.1, w.2.1, printedEntries o w.1 w.2.2)

/-! ### `Opts::parse`, `die` and the process outcome (src/main.rs lines 19–78)

The outcome model records how the process ends: a clean `exit(code)` (with
a flag saying whether a diagnostic line went to the error stream first) or
a panic.  The external library results are passed in as data:

* `argRes` is the result of `getopts::Options::parse`: an error message, or
  the matches.  In the matches, `minOpt` is the result of
  `opt_get_default("m", 0.0)`: `none` when `-m` is absent (the default 0.0
  is used), `some (some v)` when the given value parses as a double to `v`,
  and `some none` when it does not parse — in that case the source calls
  `.expect("min percentage")`, a panic.
* `globRes` is the result of `glob(&opts.input)`: a pattern error (`die`,
  which prints one line to the error stream and exits 1), or the iteration
  items, each of which is `Except.error msg` when resolving that path
  failed.  The source collects the items into a `Result` and calls
  `.unwrap()`, a panic on the first error.
-/

/-- How the process ends. -/
inductive Outcome where
  | exited (code : Nat) (diagToStderr : Bool) : Outcome
  | panicked : Outcome
deriving DecidableEq, Repr

/-- The matches returned by the getopts parse, as `Opts::parse` reads them. -/
structure ArgMatches where
  help : Bool
  reverse : Bool
  percentage : Bool
  path : Bool
  minOpt : Option (Option F)
  free : List String
deriving DecidableEq, Repr

/-- Embedding of `Opts::parse`: argument-parse errors print one line to the
error stream and exit 1; `-h` prints usage to standard output and exits 0;
an unparsable `-m` value panics via `expect`. -/
def optsParse (argRes : Except String ArgMatches) : Except Outcome Opts :=
  match argRes with
  | .error _ => .error (.exited 1 true)
  | .ok m =>
    if m.help then .error (.exited 0 false)
    else
      match m.minOpt with
      | some none => .error .panicked
      | some (some v) => .ok ⟨m.reverse, m.percentage, m.path, v⟩
      | none => .ok ⟨m.reverse, m.percentage, m.path, .fin 0⟩

/-- Embedding of `.collect::<Result<Vec, GlobError>>()` on the glob
iteration items: the collected items, or failure at the first error (the
source then calls `.unwrap()` on this result). -/
def collectDirs {P : Type} : List (Except String (RootObs P)) → Option (List (RootObs P))
  | [] => some []
  | .error _ :: _ => none
  | .ok r :: rest => (collectDirs rest).map (r :: ·)

/-- Embedding of the process outcome of `main`: parse the options, expand
the glob (dying with one diagnostic line and exit 1 on a bad pattern),
unwrap the iteration items (panicking on a resolution error), then run the
total report pipeline and end with exit 0. -/
def mainOutcome {P : Type} [LinearOrder P] (argRes : Except String ArgMatches)
    (globRes : Except String (List (Except String (RootObs P)))) : Outcome :=
  match optsParse argRes with
  | .error o => o
  | .ok opts =>
    match globRes with
    | .error _ => .exited 1 true
    | .ok items =>
      match collectDirs items with
      | none => .panicked
      | some dirs =>
        let _ := report opts dirs
        .exited 0 false

/-! ## Theorems -/

/-- Closed form of the fold in `walk_entries`, for any starting
accumulator. -/
theorem walk_entries_foldl {P : Type} (roots : List (RootObs P)) (s c : Nat)
    (es : List (Entry P)) :
    roots.foldl walkStep (s, c, es) =
      (s + (roots.map (fun r => (get_sizes r.walk).1)).sum,
       c + (roots.map (fun r => (get_sizes r.walk).2)).sum,
       es ++ (roots.filter (fun r => r.existsAfter)).map rootEntry) := by
  induction roots generalizing s c es with
  | nil => simp
  | cons r rs ih =>
      simp only [List.foldl_cons, walkStep, List.map_cons, List.sum_cons, List.filter_cons]
      cases h : r.existsAfter with
      | true => simp [ih, rootEntry, add_assoc]
      | false => simp [ih, add_assoc]

/-- Closed form of `walk_entries` itself. -/
theorem walk_entries_eq {P : Type} (roots : List (RootObs P)) :
    walk_entries roots =
      ((roots.map (fun r => (get_sizes r.walk).1)).sum,
       (roots.map (fun r => (get_sizes r.walk).2)).sum,
       (roots.filter (fun r => r.existsAfter)).map rootEntry) := by
  simpa using walk_entries_foldl roots 0 0 []

/-- C1: for every ordered sequence of expanded root paths, `walk_entries`
returns grand totals equal to the sums of the per-root aggregation results
over all roots regardless of existence, and builds a visible entry exactly
for the roots whose later existence check succeeds, in input order. -/
theorem walk_entries_spec {P : Type} (roots : List (RootObs P)) :
    (walk_entries roots).1 = (roots.map (fun r => (get_sizes r.walk).1)).sum ∧
    (walk_entries roots).2.1 = (roots.map (fun r => (get_sizes r.walk).2)).sum ∧
    (walk_entries roots).2.2 = (roots.filter (fun r => r.existsAfter)).map rootEntry := by
  rw [walk_entries_eq]
  exact ⟨rfl, rfl, rfl⟩

/-- C9: the grand totals are the sums of the independently computed
per-root totals, and permuting the roots leaves both grand totals
unchanged. -/
theorem walk_entries_totals_perm {P : Type} (roots roots' : List (RootObs P))
    (h : roots.Perm roots') :
    ((walk_entries roots).1 = (roots.map (fun r => (get_sizes r.walk).1)).sum ∧
     (walk_entries roots).2.1 = (roots.map (fun r => (get_sizes r.walk).2)).sum) ∧
    (walk_entries roots).1 = (walk_entries roots').1 ∧
    (walk_entries roots).2.1 = (walk_entries roots').2.1 := by
  rw [walk_entries_eq, walk_entries_eq]
  exact ⟨⟨rfl, rfl⟩,
    ((h.map _).sum_eq : _),
    ((h.map _).sum_eq : _)⟩

/-- Witness for C9 at two concrete roots in the two orders. -/
theorem walk_entries_totals_perm_witness :
    ((walk_entries [(⟨"a", [some 5], true⟩ : RootObs String), ⟨"b", [some 7, none], false⟩]).1 =
        ([(⟨"a", [some 5], true⟩ : RootObs String), ⟨"b", [some 7, none], false⟩].map
          (fun r => (get_sizes r.walk).1)).sum ∧
     (walk_entries [(⟨"a", [some 5], true⟩ : RootObs String), ⟨"b", [some 7, none], false⟩]).2.1 =
        ([(⟨"a", [some 5], true⟩ : RootObs String), ⟨"b", [some 7, none], false⟩].map
          (fun r => (get_sizes r.walk).2)).sum) ∧
    (walk_entries [(⟨"a", [some 5], true⟩ : RootObs String), ⟨"b", [some 7, none], false⟩]).1 =
      (walk_entries [(⟨"b", [some 7, none], false⟩ : RootObs String), ⟨"a", [some 5], true⟩]).1 ∧
    (walk_entries [(⟨"a", [some 5], true⟩ : RootObs String), ⟨"b", [some 7, none], false⟩]).2.1 =
      (walk_entries [(⟨"b", [some 7, none], false⟩ : RootObs String), ⟨"a", [some 5], true⟩]).2.1 :=
  walk_entries_totals_perm _ _
    (List.Perm.swap (⟨"b", [some 7, none], false⟩ : RootObs String) ⟨"a", [some 5], true⟩ [])

/-- C2 counterexample: aggregating an empty directory whose own metadata
length is 4096 yields `(4096, 1)`, not `(0, 1)`: the fold of `get_sizes`
adds the metadata length of every walked node, the root directory
included. -/
theorem get_sizes_empty_dir_counterexample :
    get_sizes_tree (FsTree.dir 4096 []) = (4096, 1) ∧
    get_sizes_tree (FsTree.dir 4096 []) ≠ ((0 : Nat), (1 : Nat)) := by
  constructor <;> simp [get_sizes_tree, walkEvents, get_sizes]

/-- C2 amended: aggregating an empty directory yields `(L, 1)` where `L`
is the metadata length reported for the directory itself; the count is 1,
and the size is 0 exactly when that reported length is 0. -/
theorem get_sizes_empty_dir {L : Nat} :
    get_sizes_tree (FsTree.dir L []) = (L, 1) := by
  simp [get_sizes_tree, walkEvents, get_sizes]

/-- Collecting the glob iteration items fails exactly when some item is an
error. -/
theorem collectDirs_none_of_error {P : Type} (items : List (Except String (RootObs P)))
    (msg : String) (hmem : Except.error msg ∈ items) : collectDirs items = none := by
  induction items with
  | nil => cases hmem
  | cons a rest ih =>
      cases a with
      | error e => rfl
      | ok r =>
          cases hmem with
          | tail _ hmem => simp [collectDirs, ih hmem]

/-- C3 counterexample: with well-formed arguments and a single glob
iteration item that is a path-resolution error, the program panics (the
`unwrap` on the collected iteration result) instead of skipping the path
and completing normally. -/
theorem glob_iter_error_counterexample :
    mainOutcome (P := String) (.ok ⟨false, false, false, false, none, []⟩)
        (.ok [.error "permission denied"]) = .panicked ∧
    mainOutcome (P := String) (.ok ⟨false, false, false, false, none, []⟩)
        (.ok [.error "permission denied"]) ≠ .exited 0 false := by
  constructor <;> decide

/-- C3 amended: a path-resolution error among the glob iteration items is
not skipped: the run aborts with a panic from the `unwrap` on the collected
result. -/
theorem glob_iter_error_panics {P : Type} [LinearOrder P] (m : ArgMatches)
    (items : List (Except String (RootObs P))) (msg : String)
    (hhelp : m.help = false) (hmin : m.minOpt ≠ some none)
    (hmem : Except.error msg ∈ items) :
    mainOutcome (.ok m) (.ok items) = .panicked := by
  have hc := collectDirs_none_of_error items msg hmem
  unfold mainOutcome optsParse
  rcases hv : m.minOpt with _ | _ | v <;>
    simp_all [hhelp, hc]

/-- Witness for C3 at a concrete run with one failing iteration item. -/
theorem glob_iter_error_panics_witness :
    mainOutcome (P := String) (.ok ⟨false, false, false, false, none, []⟩)
        (.ok [.error "permission denied"]) = .panicked :=
  glob_iter_error_panics ⟨false, false, false, false, none, []⟩ _ "permission denied"
    rfl (by simp) (by simp)

/-- C10 counterexample: with `-m` present but unparsable as a double
(`minOpt = some none`), the program panics through
`.expect("min percentage")` instead of printing a diagnostic and exiting
with status 1. -/
theorem min_parse_counterexample :
    mainOutcome (P := String) (.ok ⟨false, false, false, false, some none, []⟩)
        (.ok []) = .panicked ∧
    mainOutcome (P := String) (.ok ⟨false, false, false, false, some none, []⟩)
        (.ok []) ≠ .exited 1 true := by
  constructor <;> decide

/-- C10 amended: arguments rejected by the getopts parse exit 1 with one
line on the error stream, `--help` exits 0, an invalid glob pattern exits 1
with one line on the error stream, and a run whose glob items all collect
exits 0 — but a `-m` value the parse accepts and the double parse rejects
panics instead of exiting 1. -/
theorem exit_code_spec {P : Type} [LinearOrder P] :
    (∀ (msg : String) (globRes : Except String (List (Except String (RootObs P)))),
       mainOutcome (.error msg) globRes = .exited 1 true) ∧
    (∀ (m : ArgMatches) (globRes : Except String (List (Except String (RootObs P)))),
       m.help = true → mainOutcome (.ok m) globRes = .exited 0 false) ∧
    (∀ (m : ArgMatches) (globRes : Except String (List (Except String (RootObs P)))),
       m.help = false → m.minOpt = some none → mainOutcome (.ok m) globRes = .panicked) ∧
    (∀ (m : ArgMatches) (msg : String), m.help = false → m.minOpt ≠ some none →
       mainOutcome (P := P) (.ok m) (.error msg) = .exited 1 true) ∧
    (∀ (m : ArgMatches) (items : List (Except String (RootObs P)))
       (dirs : List (RootObs P)), m.help = false → m.minOpt ≠ some none →
       collectDirs items = some dirs → mainOutcome (.ok m) (.ok items) = .exited 0 false) := by
  refine ⟨fun msg globRes => rfl, fun m globRes hh => ?_, fun m globRes hh hm => ?_,
    fun m msg hh hm => ?_, fun m items dirs hh hm hc => ?_⟩ <;>
    unfold mainOutcome optsParse <;>
    rcases hv : m.minOpt with _ | _ | v <;>
    simp_all

/-- Witness for C10 at concrete runs covering each case. -/
theorem exit_code_spec_witness :
    mainOutcome (P := String) (.error "could not parse args") (.ok []) = .exited 1 true ∧
    mainOutcome (P := String) (.ok ⟨true, false, false, false, none, []⟩) (.ok []) =
      .exited 0 false ∧
    mainOutcome (P := String) (.ok ⟨false, false, false, false, some none, []⟩) (.ok []) =
      .panicked ∧
    mainOutcome (P := String) (.ok ⟨false, false, false, false, none, []⟩)
      (.error "could not use that pattern") = .exited 1 true ∧
    mainOutcome (P := String) (.ok ⟨false, false, false, false, none, []⟩) (.ok []) =
      .exited 0 false :=
  ⟨exit_code_spec.1 _ _, exit_code_spec.2.1 _ _ rfl, exit_code_spec.2.2.1 _ _ rfl rfl,
    exit_code_spec.2.2.2.1 _ _ rfl (by simp),
    exit_code_spec.2.2.2.2 _ _ [] rfl (by simp) rfl⟩

/-- IEEE `<` is irreflexive on every value, NaN included. -/
theorem F.lt_irrefl (x : F) : F.lt x x = false := by
  cases x with
  | nan => rfl
  | inf s => cases s <;> rfl
  | fin a => simp [F.lt]

/-- Nothing is below NaN or above plus infinity under IEEE `<`. -/
theorem F.lt_of_percent_total_zero (size : Nat) (m : F) :
    (percentOf size 0).lt m = false := by
  unfold percentOf F.div
  simp only [Nat.cast_zero, if_pos]
  by_cases h : (100 : ℚ) * (size : ℚ) = 0
  · rw [if_pos h]
    cases m <;> rfl
  · rw [if_neg h]
    have hpos : (0 : ℚ) < 100 * (size : ℚ) := by
      rcases lt_or_eq_of_le (by positivity : (0:ℚ) ≤ 100 * (size : ℚ)) with hlt | heq
      · exact hlt
      · exact absurd heq.symm h
    rw [decide_eq_true hpos]
    cases m <;> simp [F.lt]

/-- C4: an entry is omitted by the print loop exactly when its computed
percentage is strictly below `opts.min` under IEEE comparison; an entry
whose percentage equals the threshold is retained; and the grand totals of
the report do not depend on the filter. -/
theorem percent_filter_spec {P : Type} [LinearOrder P] (o : Opts) (total : Nat)
    (entries : List (Entry P)) :
    (∀ e : Entry P, e ∈ printedEntries o total entries ↔
        e ∈ sortedEntries o entries ∧ (percentOf e.size total).lt o.min = false) ∧
    (∀ e : Entry P, e ∈ sortedEntries o entries → percentOf e.size total = o.min →
        e ∈ printedEntries o total entries) ∧
    (∀ roots : List (RootObs P),
        (report o roots).1 = (walk_entries roots).1 ∧
        (report o roots).2.1 = (walk_entries roots).2.1) := by
  refine ⟨fun e => ?_, fun e hmem heq => ?_, fun roots => ⟨rfl, rfl⟩⟩
  · simp [printedEntries, List.mem_filter]
  · simp [printedEntries, List.mem_filter, hmem, heq, F.lt_irrefl]

/-- Witness for C4: an entry whose percentage equals the threshold exactly
is retained. -/
theorem percent_filter_spec_witness :
    (⟨"a", 0, 1⟩ : Entry String) ∈
      printedEntries ⟨false, false, false, .fin 0⟩ 1 [⟨"a", 0, 1⟩] :=
  (percent_filter_spec ⟨false, false, false, .fin 0⟩ 1 [⟨"a", 0, 1⟩]).2.1 ⟨"a", 0, 1⟩
    (by simp [sortedEntries]) (by simp [percentOf, F.div])

/-- C7 counterexample: with a zero grand total the computed percentage is
NaN, and an entry is then retained even though `minPercentage` is positive
(here 5); the claim instead says such an entry is skipped. -/
theorem zero_total_skip_counterexample :
    percentOf 0 0 = F.nan ∧
    printedEntries (P := String) ⟨false, false, false, .fin 5⟩ 0 [⟨"a", 0, 3⟩] =
      [⟨"a", 0, 3⟩] := by
  constructor
  · simp [percentOf, F.div]
  · simp [printedEntries, sortedEntries, percentOf, F.div, F.lt]

/-- C7 amended: when the grand total size is 0 the computed percentage
(NaN for a zero size) compares false against any threshold under IEEE `<`,
so every candidate entry is retained, whatever `minPercentage` is. -/
theorem zero_total_retains_all {P : Type} [LinearOrder P] (o : Opts)
    (entries : List (Entry P)) :
    printedEntries o 0 entries = sortedEntries o entries := by
  unfold printedEntries
  refine List.filter_eq_self.mpr fun e he => ?_
  simp [F.lt_of_percent_total_zero]

/-- C8: the printed order is the ascending sort by the selected key,
reversed exactly when `reverseOrder` is set; so reverse together with the
size sort is size-descending and with the path sort is path-descending. -/
theorem sort_spec {P : Type} [LinearOrder P] (o : Opts) (entries : List (Entry P)) :
    (sortedEntries o entries).Perm entries ∧
    (sortedEntries { o with reverse := true } entries =
      (sortedEntries { o with reverse := false } entries).reverse) ∧
    (o.reverse = false → o.path = false →
      (sortedEntries o entries).Sorted (fun a b => a.size ≤ b.size)) ∧
    (o.reverse = false → o.path = true →
      (sortedEntries o entries).Sorted (fun a b => a.path ≤ b.path)) ∧
    (o.reverse = true → o.path = false →
      (sortedEntries o entries).Sorted (fun a b => b.size ≤ a.size)) ∧
    (o.reverse = true → o.path = true →
      (sortedEntries o entries).Sorted (fun a b => b.path ≤ a.path)) := by
  haveI : IsTotal (Entry P) (fun a b => a.size ≤ b.size) := ⟨fun a b => Nat.le_total _ _⟩
  haveI : IsTrans (Entry P) (fun a b => a.size ≤ b.size) := ⟨fun _ _ _ => Nat.le_trans⟩
  haveI : IsTotal (Entry P) (fun a b => a.path ≤ b.path) := ⟨fun a b => le_total _ _⟩
  haveI : IsTrans (Entry P) (fun a b => a.path ≤ b.path) := ⟨fun _ _ _ => le_trans⟩
  refine ⟨?_, ?_, fun h1 h2 => ?_, fun h1 h2 => ?_, fun h1 h2 => ?_, fun h1 h2 => ?_⟩
  · unfold sortedEntries
    cases o.reverse <;> cases o.path <;>
      simp [List.reverse_perm, (List.perm_insertionSort _ _),
        ((List.reverse_perm _).trans (List.perm_insertionSort _ _))]
  · simp [sortedEntries]
  · simp only [sortedEntries, h1, h2, if_neg, Bool.false_eq_true, if_false]
    exact List.sorted_insertionSort _ entries
  · simp only [sortedEntries, h1, h2, if_pos, Bool.false_eq_true, if_false, if_true]
    exact List.sorted_insertionSort _ entries
  · simp only [sortedEntries, h1, h2, Bool.false_eq_true, if_false, if_true]
    show ((List.insertionSort (fun a b => a.size ≤ b.size) entries).reverse).Pairwise _
    rw [List.pairwise_reverse]
    exact List.sorted_insertionSort _ entries
  · simp only [sortedEntries, h1, h2, if_true]
    show ((List.insertionSort (fun a b => a.path ≤ b.path) entries).reverse).Pairwise _
    rw [List.pairwise_reverse]
    exact List.sorted_insertionSort _ entries

/-- Witness for C8: reversed size sort on two concrete entries is
size-descending and a permutation of the input. -/
theorem sort_spec_witness :
    (sortedEntries ⟨true, false, false, .fin 0⟩
        [(⟨"a", 1, 1⟩ : Entry String), ⟨"b", 9, 1⟩]).Perm
      [(⟨"a", 1, 1⟩ : Entry String), ⟨"b", 9, 1⟩] ∧
    (sortedEntries ⟨true, false, false, .fin 0⟩
        [(⟨"a", 1, 1⟩ : Entry String), ⟨"b", 9, 1⟩]).Sorted
      (fun a b => b.size ≤ a.size) :=
  ⟨(sort_spec ⟨true, false, false, .fin 0⟩ _).1,
   (sort_spec ⟨true, false, false, .fin 0⟩ _).2.2.2.2.1 rfl rfl⟩

/-- The result of `commaAux` does not depend on the fuel while the fuel is
at least the argument. -/
theorem commaAux_fuel : ∀ n f₁ f₂ : Nat, n ≤ f₁ → n ≤ f₂ →
    commaAux f₁ n = commaAux f₂ n := by
  intro n
  induction n using Nat.strong_induction_on with
  | _ n ih =>
    intro f₁ f₂ h₁ h₂
    match f₁, f₂ with
    | 0, 0 => rfl
    | 0, g + 1 =>
        have hn : n = 0 := Nat.le_zero.mp h₁
        subst hn; simp [commaAux]
    | g + 1, 0 =>
        have hn : n = 0 := Nat.le_zero.mp h₂
        subst hn; simp [commaAux]
    | g₁ + 1, g₂ + 1 =>
        by_cases h : n < 1000
        · simp [commaAux, h]
        · have hd : n / 1000 < n := Nat.div_lt_self (by omega) (by omega)
          simp only [commaAux, if_neg h]
          rw [ih (n / 1000) hd g₁ g₂ (by omega) (by omega)]

/-- The thousand-group list is never empty. -/
theorem commaGroups_ne_nil (n : Nat) : commaGroups n ≠ [] := by
  rw [commaGroups]
  split <;> simp

/-- Appending one more least-significant group renders as the prior groups
followed by a comma and the padded group. -/
theorem renderGroups_append (L : List Nat) (hL : L ≠ []) (m : Nat) :
    renderGroups (L ++ [m]) = renderGroups L ++ "," ++ pad3 m := by
  cases L with
  | nil => exact absurd rfl hL
  | cons g gs =>
      refine String.ext ?_
      simp [renderGroups, String.join_eq]

/-- One unfolding of `format_count` at a value of at least 1000. -/
theorem format_count_step (n : Nat) (h : ¬n < 1000) :
    format_count n = format_count (n / 1000) ++ "," ++ pad3 (n % 1000) := by
  unfold format_count
  obtain ⟨m, rfl⟩ : ∃ m, n = m + 1 := ⟨n - 1, by omega⟩
  simp only [commaAux, if_neg h]
  rw [commaAux_fuel ((m + 1) / 1000) m ((m + 1) / 1000)
    (by omega) le_rfl]

/-- `format_count` agrees with the group-splitting model of the
specification. -/
theorem format_count_eq_model (n : Nat) : format_count n = format_count_model n := by
  induction n using Nat.strong_induction_on with
  | _ n ih =>
    by_cases h : n < 1000
    · have h1 : format_count n = Nat.repr n := by
        unfold format_count
        cases n with
        | zero => rfl
        | succ m => simp [commaAux, h]
      rw [h1]
      unfold format_count_model
      rw [commaGroups]
      rw [dif_pos h]
      refine String.ext ?_
      simp [renderGroups, String.join_eq]
    · have hd : n / 1000 < n := Nat.div_lt_self (by omega) (by omega)
      rw [format_count_step n h, ih (n / 1000) hd]
      unfold format_count_model
      conv_rhs => rw [commaGroups]
      rw [dif_neg h, List.reverse_cons,
        renderGroups_append _ (by simp [commaGroups_ne_nil]) _]

/-- C6: `format_count` renders the decimal value in thousand groups
separated by commas — no separator below 1000, the leading group rendered
with no padding — for every natural number, with the concrete values of
the specification. -/
theorem format_count_spec :
    format_count 0 = "0" ∧ format_count 999 = "999" ∧ format_count 1000 = "1,000" ∧
    format_count 1234567 = "1,234,567" ∧
    (∀ n : Nat, n < 1000 → format_count n = Nat.repr n) ∧
    (∀ n : Nat, format_count n = format_count_model n) := by
  refine ⟨by decide, by decide, by decide, by decide, fun n h => ?_, format_count_eq_model⟩
  unfold format_count
  cases n with
  | zero => rfl
  | succ m => simp [commaAux, h]

/-- Witness for C6: a value below 1000 renders with no separator. -/
theorem format_count_spec_witness : format_count 7 = Nat.repr 7 :=
  format_count_spec.2.2.2.2.1 7 (by decide)

/-- A value below 1024 is not scaled. -/
theorem sizeLoop_small (fuel : Nat) (q : ℚ) (order : Nat) (h : q < 1024) :
    sizeLoop fuel q order = (q, order) := by
  cases fuel <;> simp [sizeLoop, not_le.mpr h]

/-- Invariant of the scaling loop: the order moves forward by at most the
fuel, the loop stops only below 1024 or out of fuel, the scaled value times
the absorbed powers of 1024 recovers the input, and a value of at least 1
stays at least 1. -/
theorem sizeLoop_spec : ∀ (fuel : Nat) (q : ℚ) (order : Nat),
    order ≤ (sizeLoop fuel q order).2 ∧
    (sizeLoop fuel q order).2 ≤ order + fuel ∧
    ((sizeLoop fuel q order).1 < 1024 ∨ (sizeLoop fuel q order).2 = order + fuel) ∧
    (sizeLoop fuel q order).1 * 1024 ^ ((sizeLoop fuel q order).2 - order) = q ∧
    (1 ≤ q → 1 ≤ (sizeLoop fuel q order).1) ∧
    (order < (sizeLoop fuel q order).2 → 1 ≤ (sizeLoop fuel q order).1) := by
  intro fuel
  induction fuel with
  | zero =>
      intro q order
      simp only [sizeLoop]
      exact ⟨le_rfl, by omega, Or.inr (by omega), by simp, fun h => h, by omega⟩
  | succ fuel ih =>
      intro q order
      by_cases hq : (1024 : ℚ) ≤ q
      · have hstep : sizeLoop (fuel + 1) q order = sizeLoop fuel (q / 1024) (order + 1) := by
          simp [sizeLoop, hq]
        obtain ⟨A, B, C, D, E, G⟩ := ih (q / 1024) (order + 1)
        have hone : (1 : ℚ) ≤ q / 1024 := (one_le_div (by norm_num)).mpr hq
        rw [hstep]
        refine ⟨by omega, by omega, ?_, ?_, fun _ => E hone, fun _ => E hone⟩
        · rcases C with h | h
          · exact Or.inl h
          · exact Or.inr (by omega)
        · have ho : (sizeLoop fuel (q / 1024) (order + 1)).2 - order =
              ((sizeLoop fuel (q / 1024) (order + 1)).2 - (order + 1)) + 1 := by omega
          rw [ho, pow_succ, ← mul_assoc, D, div_mul_cancel₀ q (by norm_num)]
      · have h : q < 1024 := not_le.mp hq
        rw [sizeLoop_small _ _ _ h]
        exact ⟨le_rfl, by omega, Or.inl h, by simp, fun hh => hh, by omega⟩

/-- The rounding of an exact natural value is that value. -/
theorem roundHalfEven_natCast (k : Nat) : roundHalfEven ((k : Nat) : ℚ) = k := by
  unfold roundHalfEven
  simp [Rat.num_natCast, Rat.den_natCast, Nat.mod_one, Nat.div_one]

/-- C5: `format_size` divides by 1024 while the value is at least 1024 and
a larger unit remains in the nine-unit table (so the order never passes Y,
index 8, even for huge values), the scaled value exactly accounts for the
absorbed factors of 1024, and the concrete values of the specification
render as stated with two decimal digits, a space and the unit. -/
theorem format_size_spec :
    format_size 0 = "0.00 B" ∧ format_size 1024 = "1.00 K" ∧
    format_size 1536 = "1.50 K" ∧ format_size (1024 ^ 8) = "1.00 Y" ∧
    (∀ n : Nat,
      (sizeLoop (SIZES.length - 1) ((n : Nat) : ℚ) 0).2 ≤ 8 ∧
      ((sizeLoop (SIZES.length - 1) ((n : Nat) : ℚ) 0).1 < 1024 ∨
        (sizeLoop (SIZES.length - 1) ((n : Nat) : ℚ) 0).2 = 8) ∧
      (sizeLoop (SIZES.length - 1) ((n : Nat) : ℚ) 0).1 *
        1024 ^ (sizeLoop (SIZES.length - 1) ((n : Nat) : ℚ) 0).2 = ((n : Nat) : ℚ) ∧
      (1 ≤ (sizeLoop (SIZES.length - 1) ((n : Nat) : ℚ) 0).1 ∨
        (sizeLoop (SIZES.length - 1) ((n : Nat) : ℚ) 0).2 = 0)) := by
  refine ⟨?_, ?_, ?_, ?_, fun n => ?_⟩
  · have h : sizeLoop (SIZES.length - 1) ((0 : Nat) : ℚ) 0 = (((0 : Nat) : ℚ), 0) :=
      sizeLoop_small _ _ _ (by norm_num)
    have hm : ((0 : Nat) : ℚ) * 100 = ((0 : Nat) : ℚ) := by norm_num
    simp only [format_size, h, renderFixed2, hm, roundHalfEven_natCast]
    decide
  · have h : sizeLoop (SIZES.length - 1) ((1024 : Nat) : ℚ) 0 = (1, 1) := by
      norm_num [SIZES, sizeLoop]
    have hm : (1 : ℚ) * 100 = ((100 : Nat) : ℚ) := by norm_num
    simp only [format_size, h, renderFixed2, hm, roundHalfEven_natCast]
    decide
  · have h : sizeLoop (SIZES.length - 1) ((1536 : Nat) : ℚ) 0 = (3 / 2, 1) := by
      norm_num [SIZES, sizeLoop]
    have hm : (3 / 2 : ℚ) * 100 = ((150 : Nat) : ℚ) := by norm_num
    simp only [format_size, h, renderFixed2, hm, roundHalfEven_natCast]
    decide
  · have h : sizeLoop (SIZES.length - 1) ((1024 ^ 8 : Nat) : ℚ) 0 = (1, 8) := by
      norm_num [SIZES, sizeLoop]
    have hm : (1 : ℚ) * 100 = ((100 : Nat) : ℚ) := by norm_num
    simp only [format_size, h, renderFixed2, hm, roundHalfEven_natCast]
    decide
  · obtain ⟨A, B, C, D, E, G⟩ := sizeLoop_spec (SIZES.length - 1) ((n : Nat) : ℚ) 0
    have hlen : SIZES.length - 1 = 8 := rfl
    refine ⟨by omega, ?_, by simpa using D, ?_⟩
    · rcases C with h | h
      · exact Or.inl h
      · exact Or.inr (by omega)
    · by_cases h0 : 0 < (sizeLoop (SIZES.length - 1) ((n : Nat) : ℚ) 0).2
      · exact Or.inl (G h0)
      · exact Or.inr (by omega)

end Dust
